import Mathlib

/-!
Verification of the BrainDrive-Scout content-review pipeline.

A shallow embedding, in Lean 4, of the core logic of the BrainDrive-Scout
repository (`src/scout/...`): the content fetcher's URL classification and
truncation, the project-context loader, the relevance analyzer's JSON
response parsing, the review orchestrator's ranking, and the research
logger's append-only date-headered log format.

Python strings are modelled as `List Char` for the character-level
components (fetcher, analyzer, logger) and as Lean `String` for the
pydantic models (`ProjectContext.get_combined_context`).  Network I/O is
modelled by passing the remote responses as explicit parameters.
-/

set_option maxRecDepth 10000

namespace Scout

/-- Characters of a string literal (Python `str` modelled as `List Char`). -/
def chars (s : String) : List Char := s.data

/-- The newline character, written out once. -/
def nl : Char := '\n'

/-- Substring containment, Python's `needle in haystack` on strings. -/
def containsSubL (hay needle : List Char) : Bool :=
  hay.tails.any fun t => needle.isPrefixOf t

/-- Python `text.split("\n")`: split a character list at every newline.
The result is always nonempty; an empty input yields `[[]]`, exactly as
`"".split("\n") == [""]` in Python. -/
def splitLines : List Char → List (List Char)
  | [] => [[]]
  | c :: rest =>
    if c = nl then [] :: splitLines rest
    else
      match splitLines rest with
      | [] => [[c]]
      | l :: ls => (c :: l) :: ls

/-- Python `"\n".join(lines)`. -/
def joinLines : List (List Char) → List Char
  | [] => []
  | [l] => l
  | l :: ls => l ++ nl :: joinLines ls

/-- The whitespace characters stripped by Python's `str.strip()`
(ASCII fragment; the sources only ever see ASCII whitespace). -/
def isPySpace (c : Char) : Bool :=
  c = ' ' || c = '\t' || c = '\n' || c = '\r' || c = '\x0b' || c = '\x0c'

/-- Python `line.strip()`. -/
def pyStrip (l : List Char) : List Char :=
  ((l.dropWhile isPySpace).reverse.dropWhile isPySpace).reverse

/-- The fetcher's hard truncation: `content[:budget] + marker` when the
content exceeds the budget, the content unchanged otherwise
(`fetcher.py` lines 79-80 and 107-108). -/
def pyTruncate (budget : Nat) (marker : List Char) (content : List Char) : List Char :=
  if budget < content.length then content.take budget ++ marker else content

/-! ## Data model (`models/schemas.py`) -/

/-- The `ContentType` enumeration (`schemas.py` lines 8-12). -/
inductive ContentType where
  | article | twitter | youtube | unknown
deriving DecidableEq, Repr

/-- The `RelevanceLevel` enumeration (`schemas.py` lines 15-18). -/
inductive RelevanceLevel where
  | high | medium | low
deriving DecidableEq, Repr

/-- The `ProjectContext` pydantic model (`schemas.py` lines 55-59). -/
structure ProjectContext where
  name : String
  spec : Option String := none
  build_plan : Option String := none
  ideas : Option String := none
deriving DecidableEq, Repr

/-- Python truthiness of an `Optional[str]` field: `None` and `""` are
falsy, every other string is truthy. -/
def truthyStr : Option String → Bool
  | none => false
  | some s => !s.data.isEmpty

/-- Method `ProjectContext.get_combined_context` (`schemas.py` lines 61-69):
append a section for each truthy field in the order spec, build plan,
ideas, join them with the section marker, and fall back to the sentinel
when no section was collected. -/
def ProjectContext.get_combined_context (c : ProjectContext) : String :=
  let parts : List String :=
    (if truthyStr c.spec then ["## Project Specification\n\n" ++ c.spec.getD ""] else []) ++
    (if truthyStr c.build_plan then ["## Build Plan\n\n" ++ c.build_plan.getD ""] else []) ++
    (if truthyStr c.ideas then ["## Ideas\n\n" ++ c.ideas.getD ""] else [])
  if parts.isEmpty then "No project context available."
  else String.intercalate "\n\n---\n\n" parts

/-- The `AnalysisResult` pydantic model (`schemas.py` lines 72-75). -/
structure AnalysisResult where
  relevance : RelevanceLevel
  insights : List String
  suggestions : List String
deriving DecidableEq, Repr

/-- The `ProjectInfo` pydantic model (`schemas.py` lines 38-41). -/
structure ProjectInfo where
  name : String
  description : Option String := none
  path : String
deriving DecidableEq, Repr

/-- The `ProjectRelevance` pydantic model (`schemas.py` lines 82-87). -/
structure ProjectRelevance where
  project : String
  relevance : RelevanceLevel
  insights : List String
  suggestions : List String
deriving DecidableEq, Repr

/-! ## URL host extraction and content-type detection (`fetcher.py`) -/

/-- Characters allowed in a URL scheme after the leading letter
(CPython `urllib.parse.scheme_chars`). -/
def isSchemeChar (c : Char) : Bool :=
  c.isAlpha || c.isDigit || c = '+' || c = '-' || c = '.'

/-- The part of the URL after a valid `scheme:` prefix, or the whole URL
when no valid scheme is present (CPython `urlsplit` scheme handling). -/
def afterScheme (url : List Char) : List Char :=
  match url.findIdx? (fun c => c = ':') with
  | none => url
  | some i =>
    let pre := url.take i
    match pre with
    | [] => url
    | c :: _ =>
      if c.isAlpha && pre.all isSchemeChar then url.drop (i + 1) else url

/-- Python `urlparse(url).netloc`: when the remainder after the scheme starts
with `//`, the characters up to the next `/`, `?` or `#`;
otherwise empty (CPython `urlsplit` netloc handling). -/
def netlocOf (url : List Char) : List Char :=
  let rest := afterScheme url
  match rest with
  | '/' :: '/' :: r => r.takeWhile fun c => c ≠ '/' && c ≠ '?' && c ≠ '#'
  | _ => []

/-- Method `ContentFetcher.detect_content_type` (`fetcher.py` lines 19-28):
substring checks against the lowercased host, Twitter markers first,
then YouTube markers, otherwise article. -/
def detect_content_type (url : List Char) : ContentType :=
  let domain := (netlocOf url).map Char.toLower
  if containsSubL domain (chars "twitter.com") || containsSubL domain (chars "x.com") then
    ContentType.twitter
  else if containsSubL domain (chars "youtube.com") || containsSubL domain (chars "youtu.be") then
    ContentType.youtube
  else
    ContentType.article

/-- The content-type classification the review route performs for manual
content (`routes.py` lines 60-67): the same substring markers in the same
order, but tested against the whole raw URL string (case-sensitively),
not against the lowercased host.  The initial `UNKNOWN` is always
overwritten by one of the three branches. -/
def routeManualContentType (url : List Char) : ContentType :=
  if containsSubL url (chars "twitter.com") || containsSubL url (chars "x.com") then
    ContentType.twitter
  else if containsSubL url (chars "youtube.com") || containsSubL url (chars "youtu.be") then
    ContentType.youtube
  else
    ContentType.article

/-! ## Article and video extraction (`fetcher.py`) -/

/-- The `FetchedContent` pydantic model over character lists
(`schemas.py` lines 48-52). -/
structure FetchedContent where
  url : List Char
  title : List Char
  content : List Char
  content_type : ContentType
deriving DecidableEq, Repr

/-- The article truncation marker (`fetcher.py` line 80). -/
def articleMarker : List Char := chars "\n\n[Content truncated...]"

/-- The transcript truncation marker (`fetcher.py` line 108). -/
def transcriptMarker : List Char := chars "\n\n[Transcript truncated...]"

/-- Whitespace normalization in `ContentFetcher._fetch_article`
(`fetcher.py` lines 75-76): strip every line, drop lines that strip to
empty, re-join with newlines. -/
def articleNormalize (text : List Char) : List Char :=
  joinLines (((splitLines text).map pyStrip).filter fun l => !l.isEmpty)

/-- The content post-processing of `ContentFetcher._fetch_article`
(`fetcher.py` lines 74-80): whitespace normalization followed, as the
last step, by hard truncation at 10,000 characters. -/
def articleContent (text : List Char) : List Char :=
  let content := articleNormalize text
  if 10000 < content.length then content.take 10000 ++ articleMarker else content

/-- The character class `[a-zA-Z0-9_-]` of the video-id patterns
(`fetcher.py` lines 118-122). -/
def isYtIdChar (c : Char) : Bool :=
  c.isAlpha || c.isDigit || c = '_' || c = '-'

/-- Take the 11-character id group of a video-id pattern: succeeds when
the next 11 characters all lie in `[a-zA-Z0-9_-]`. -/
def takeYtId (t : List Char) : Option (List Char) :=
  let id := t.take 11
  if id.length = 11 && id.all isYtIdChar then some id else none

/-- Match one prioritized pattern at one position: the literal prefix
followed by the 11-character id group. -/
def matchYtLit (lit : List Char) (t : List Char) : Option (List Char) :=
  if lit.isPrefixOf t then takeYtId (t.drop lit.length) else none

/-- Python `re.search` of one pattern: try every position left to right
(Python's leftmost-match rule), alternatives in written order. -/
def searchYt (lits : List (List Char)) (url : List Char) : Option (List Char) :=
  url.tails.findSome? fun t => lits.findSome? fun lit => matchYtLit lit t

/-- Method `ContentFetcher._extract_youtube_id` (`fetcher.py` lines 117-127):
the three patterns are tried in order; the first two alternatives of the
first pattern share one regular expression. -/
def extract_youtube_id (url : List Char) : Option (List Char) :=
  match searchYt [chars "youtube.com/watch?v=", chars "youtu.be/"] url with
  | some id => some id
  | none =>
    match searchYt [chars "youtube.com/embed/"] url with
    | some id => some id
    | none => searchYt [chars "youtube.com/v/"] url

/-- Outcome of the external transcript-service call in
`ContentFetcher._fetch_youtube` (`fetcher.py` lines 98-104): either an
ordered list of segment texts, a `TranscriptsDisabled` or
`NoTranscriptFound` condition, or any other exception. -/
inductive TranscriptOutcome where
  | segments (texts : List (List Char))
  | disabled (msg : List Char)
  | notFound (msg : List Char)
  | otherError (msg : List Char)
deriving DecidableEq, Repr

/-- Python `" ".join(entry["text"] for entry in transcript_list)`. -/
def joinSpace : List (List Char) → List Char
  | [] => []
  | [l] => l
  | l :: ls => l ++ ' ' :: joinSpace ls

/-- Method `ContentFetcher._fetch_youtube` (`fetcher.py` lines 89-115).  The
title helper's outcome is passed in as `titleResult` (`none` models a
failed or titleless page fetch, which `_get_youtube_title` turns into
the placeholder); the transcript-service outcome is passed in as `tr`.
A missing video id raises `ValueError` (modelled as `Except.error`);
every transcript condition is absorbed into the content string. -/
def fetch_youtube (url : List Char) (titleResult : Option (List Char))
    (tr : TranscriptOutcome) : Except (List Char) FetchedContent :=
  match extract_youtube_id url with
  | none => Except.error (chars "Could not extract YouTube video ID from URL: " ++ url)
  | some _ =>
    let title := titleResult.getD (chars "YouTube Video")
    let transcript :=
      match tr with
      | TranscriptOutcome.segments ts => joinSpace ts
      | TranscriptOutcome.disabled m => chars "[Transcript not available: " ++ m ++ [']']
      | TranscriptOutcome.notFound m => chars "[Transcript not available: " ++ m ++ [']']
      | TranscriptOutcome.otherError m => chars "[Error fetching transcript: " ++ m ++ [']']
    let transcript := pyTruncate 15000 transcriptMarker transcript
    Except.ok ⟨url, title, transcript, ContentType.youtube⟩

/-! ## Project context store (`services/context.py`) -/

/-- The body `data` of a successful GitHub contents response: whether a
`"content"` key is present and, if so, the base64-decoded UTF-8 text
(decoding is modelled as already performed; a decode failure is modelled
by the `exn` outcome of the request). -/
structure FileData where
  content : Option String := none
deriving DecidableEq, Repr

/-- Outcome of one HTTP GET against the document store: a response with
a status code and body, or an exception raised by the request itself. -/
inductive FetchOutcome where
  | resp (status : Nat) (data : FileData)
  | exn
deriving DecidableEq, Repr

/-- The exceptions that can escape the try-block of
`ContextLoader._fetch_file` before its handlers run. -/
inductive PyErr where
  | httpStatusError (status : Nat)
  | requestError
deriving DecidableEq, Repr

/-- Python `response.raise_for_status()` raises `HTTPStatusError` for
every non-2xx status: httpx only treats 200-299 as success, and the
`context.py` clients are built without `follow_redirects`, so 1xx and
3xx responses reach this check and raise as well. -/
def isErrorStatus (s : Nat) : Bool := s < 200 || 300 ≤ s

/-- The try-block body of `ContextLoader._fetch_file`
(`context.py` lines 83-97, before the `except` clauses): a 404 returns
`None`, any other non-2xx status raises `HTTPStatusError`, a request
exception propagates, otherwise the decoded `"content"` field (or `None`
when the key is missing, line 104). -/
def fetch_file_body (o : FetchOutcome) : Except PyErr (Option String) :=
  match o with
  | FetchOutcome.exn => Except.error PyErr.requestError
  | FetchOutcome.resp status data =>
    if status = 404 then Except.ok none
    else if isErrorStatus status then Except.error (PyErr.httpStatusError status)
    else Except.ok data.content

/-- Method `ContextLoader._fetch_file` (`context.py` lines 79-104): the
`except httpx.HTTPStatusError` and `except Exception` clauses both turn
every raised error into `None`, so the function never raises. -/
def fetch_file (o : FetchOutcome) : Option String :=
  match fetch_file_body o with
  | Except.ok r => r
  | Except.error _ => none

/-- Method `ContextLoader.load_project_context` (`context.py` lines 66-77):
three independent `_fetch_file` calls; nothing in the function can raise,
so the `Except` layer (recording what the spec calls `ContextError`)
always returns `ok`. -/
def load_project_context (name : String) (oSpec oBuild oIdeas : FetchOutcome) :
    Except PyErr ProjectContext :=
  Except.ok ⟨name, fetch_file oSpec, fetch_file oBuild, fetch_file oIdeas⟩

/-- A directory item of the GitHub listing response
(`context.py` lines 34-35). -/
structure ListingItem where
  name : String
  type : String
  path : String
deriving DecidableEq, Repr

/-- Method `ContextLoader._get_project_description` (`context.py` lines 48-64):
first non-empty line of the fetched spec that does not start with `#`,
stripped, truncated to 97 characters plus an ellipsis when longer than
100; every failure yields `None`. -/
def get_project_description (o : FetchOutcome) : Option String :=
  match fetch_file o with
  | none => none
  | some spec_content =>
    let lines := (splitLines (chars spec_content)).map pyStrip
    match lines.find? (fun l => !l.isEmpty && !(['#'].isPrefixOf l)) with
    | none => none
    | some l =>
      if 100 < l.length then some ⟨l.take 97 ++ chars "..."⟩ else some ⟨l⟩

/-- Method `ContextLoader.list_projects` (`context.py` lines 23-46): the listing
request's `raise_for_status()` propagates on any non-2xx status and a
request exception propagates as well; otherwise hidden and non-directory
entries are filtered out and a best-effort description is attached.
`descO` gives the per-project outcome of the description's spec fetch. -/
def list_projects (o : FetchOutcome) (items : List ListingItem)
    (descO : String → FetchOutcome) : Except PyErr (List ProjectInfo) :=
  match o with
  | FetchOutcome.exn => Except.error PyErr.requestError
  | FetchOutcome.resp status _ =>
    if isErrorStatus status then Except.error (PyErr.httpStatusError status)
    else Except.ok <| items.filterMap fun it =>
      if it.type = "dir" && !(it.name.startsWith ".") then
        some ⟨it.name, get_project_description (descO it.name), it.path⟩
      else none

/-! ## All-projects review ranking (`api/routes.py`) -/

/-- Dictionary `relevance_order` (`routes.py` line 135): the dictionary
mapping HIGH to 0, MEDIUM to 1 and LOW to 2; the `.get` default 99 can never be
consulted because the dictionary is total on `RelevanceLevel`. -/
def relevance_order : RelevanceLevel → Nat
  | RelevanceLevel.high => 0
  | RelevanceLevel.medium => 1
  | RelevanceLevel.low => 2

/-- The accumulation loop of `_review_all_projects`
(`routes.py` lines 137-166) applied to the per-project verdicts the
fan-out produced: keep a `ProjectRelevance` for every HIGH or MEDIUM
verdict in iteration order, and log exactly those retained verdicts
(the second component lists the projects logged; log failures are
swallowed and do not affect either list). -/
def review_all_collect : List (String × AnalysisResult) → List ProjectRelevance × List String
  | [] => ([], [])
  | (n, a) :: rest =>
    let (rs, ls) := review_all_collect rest
    if a.relevance = RelevanceLevel.high ∨ a.relevance = RelevanceLevel.medium then
      (⟨n, a.relevance, a.insights, a.suggestions⟩ :: rs, n :: ls)
    else (rs, ls)

/-- One step of the stable insertion modelling Python's stable
`list.sort`: an element arriving later is placed after every
already-placed element whose key is less than or equal to its own. -/
def insertStable (key : ProjectRelevance → Nat) (x : ProjectRelevance) :
    List ProjectRelevance → List ProjectRelevance
  | [] => [x]
  | y :: ys => if key x < key y then x :: y :: ys else y :: insertStable key x ys

/-- Python's `list.sort(key=...)` (a stable sort) on the collected
results, processing the list left to right. -/
def pyStableSort (key : ProjectRelevance → Nat) (l : List ProjectRelevance) :
    List ProjectRelevance :=
  l.foldl (fun acc x => insertStable key x acc) []

/-- Function `_review_all_projects` result assembly (`routes.py` lines 134-169):
collect the retained verdicts, then sort them by
`relevance_order.get(r.relevance, 99)` with Python's stable sort. -/
def review_all_rank (verdicts : List (String × AnalysisResult)) : List ProjectRelevance :=
  pyStableSort (fun r => relevance_order r.relevance) (review_all_collect verdicts).1

/-- The no-context precondition gate of the single-project review
(`routes.py` lines 96-100): when all three context fields are falsy the
request is rejected with a client-input-class HTTP 400 failure. -/
def reviewContextGate (project : String) (ctx : ProjectContext) :
    Except (Nat × String) Unit :=
  if !truthyStr ctx.spec && !truthyStr ctx.build_plan && !truthyStr ctx.ideas then
    Except.error (400, "Project '" ++ project ++ "' not found or has no context files")
  else Except.ok ()

/-! ## Research logger (`services/logger.py`) -/

/-- The per-invocation strings interpolated into a log entry: the
content's title and url, the formatted time, the `content_type.value`
and `relevance.value` strings, and the insight and suggestion lists. -/
structure LogFields where
  title : List Char
  url : List Char
  timeStr : List Char
  ctVal : List Char
  relVal : List Char
  insights : List (List Char)
  suggestions : List (List Char)
deriving DecidableEq, Repr

/-- The `entry_parts` list built by `ResearchLogger.log_review`
(`logger.py` lines 38-62): optional file-title header, optional date
header, title+link line, metadata line, relevance line, optional
insights block, optional suggestions block, trailing empty part. -/
def mkEntryParts (fileExists needsHeader : Bool) (p d : List Char)
    (f : LogFields) : List (List Char) :=
  (if fileExists then [] else [chars "# Research Log: " ++ p ++ [nl]]) ++
  (if needsHeader then [nl :: (chars "## " ++ d ++ [nl])] else []) ++
  [nl :: (chars "### [" ++ f.title ++ chars "](" ++ f.url ++ [')'])] ++
  [chars "*Reviewed at " ++ f.timeStr ++ chars " | Type: " ++ f.ctVal ++ ['*', nl]] ++
  [chars "- **Relevance**: " ++ f.relVal] ++
  (if f.insights.isEmpty then []
   else chars "- **Key insights**:" :: f.insights.map fun i => chars "  - " ++ i) ++
  (if f.suggestions.isEmpty then []
   else chars "- **Suggestions**:" :: f.suggestions.map fun s => chars "  - " ++ s) ++
  [[]]

/-- Method `ResearchLogger.log_review` (`logger.py` lines 13-70) as a pure
state transformer on the log file's content (`none` models a file that
does not exist yet): read the existing content, decide the date header
by a substring scan for `"## " + date`, build the entry, join the parts
with newlines, and append.  `p` is the project name, `d` today's date
string. -/
def log_review (st : Option (List Char)) (p d : List Char) (f : LogFields) : List Char :=
  let fileExists := st.isSome
  let existing := st.getD []
  let needsHeader := !containsSubL existing (chars "## " ++ d)
  existing ++ joinLines (mkEntryParts fileExists needsHeader p d f)

/-- Number of lines of `s` that consist exactly of the date header
`"## " + d`. -/
def headerLineCount (s : List Char) (d : List Char) : Nat :=
  (splitLines s).countP fun l => l = chars "## " ++ d

/-! ## Relevance analyzer response parsing (`services/analyzer.py`)

Python's `json` module is part of the analyzer's observable behaviour,
so a JSON value type and a parser for the JSON grammar (RFC 8259,
as accepted by `json.loads`) are embedded here.  Number values are kept
as lexemes: no claim depends on numeric value arithmetic. -/

/-- A parsed JSON value. -/
inductive Json where
  | null
  | bool (b : Bool)
  | num (lexeme : List Char)
  | str (s : List Char)
  | arr (xs : List Json)
  | obj (fields : List (List Char × Json))

/-- JSON inter-token whitespace (`json.loads` accepts exactly these). -/
def isJsonWs (c : Char) : Bool :=
  c = ' ' || c = '\t' || c = '\n' || c = '\r'

/-- Skip JSON whitespace. -/
def skipWs (cs : List Char) : List Char := cs.dropWhile isJsonWs

/-- Value of a hexadecimal digit, by code-point ranges: digits `0`-`9`
are 48-57, lower-case `a`-`f` are 97-102, upper-case `A`-`F` are 65-70. -/
def hexVal (c : Char) : Option Nat :=
  let n := c.toNat
  if 48 ≤ n && n ≤ 57 then some (n - 48)
  else if 97 ≤ n && n ≤ 102 then some (n - 87)
  else if 65 ≤ n && n ≤ 70 then some (n - 55)
  else none

/-- Parse the remainder of a JSON string after the opening quote,
handling the escape sequences `json.loads` accepts.  A `\uXXXX` escape
is mapped through `Char.ofNat` (surrogate pairs are not recombined;
no claim exercises them).  Unescaped control characters are rejected,
as in the strict default mode of `json.loads`. -/
def parseJString : List Char → Option (List Char × List Char)
  | [] => none
  | '"' :: rest => some ([], rest)
  | '\\' :: rest =>
    match rest with
    | '"' :: r => (parseJString r).map fun (s, r') => ('"' :: s, r')
    | '\\' :: r => (parseJString r).map fun (s, r') => ('\\' :: s, r')
    | '/' :: r => (parseJString r).map fun (s, r') => ('/' :: s, r')
    | 'b' :: r => (parseJString r).map fun (s, r') => ('\x08' :: s, r')
    | 'f' :: r => (parseJString r).map fun (s, r') => ('\x0c' :: s, r')
    | 'n' :: r => (parseJString r).map fun (s, r') => ('\n' :: s, r')
    | 'r' :: r => (parseJString r).map fun (s, r') => ('\r' :: s, r')
    | 't' :: r => (parseJString r).map fun (s, r') => ('\t' :: s, r')
    | 'u' :: h1 :: h2 :: h3 :: h4 :: r =>
      match hexVal h1, hexVal h2, hexVal h3, hexVal h4 with
      | some a, some b, some c, some dd =>
        let n := ((a * 16 + b) * 16 + c) * 16 + dd
        (parseJString r).map fun (s, r') => (Char.ofNat n :: s, r')
      | _, _, _, _ => none
    | _ => none
  | c :: rest =>
    if c.toNat < 0x20 then none
    else (parseJString rest).map fun (s, r') => (c :: s, r')

/-- The integer part of a JSON number: `0` or a nonzero digit followed
by digits (leading zeros are rejected, as by `json.loads`). -/
def parseIntPart : List Char → Option (List Char × List Char)
  | '0' :: rest => some (['0'], rest)
  | c :: rest =>
    if c.isDigit then
      some (c :: rest.takeWhile Char.isDigit, rest.dropWhile Char.isDigit)
    else none
  | [] => none

/-- The optional fraction part `.digits`. -/
def parseFracPart (cs : List Char) : List Char × List Char :=
  match cs with
  | '.' :: rest =>
    if rest.takeWhile Char.isDigit ≠ [] then
      ('.' :: rest.takeWhile Char.isDigit, rest.dropWhile Char.isDigit)
    else ([], cs)
  | _ => ([], cs)

/-- The optional exponent part `(e|E)(+|-)?digits`. -/
def parseExpPart (cs : List Char) : List Char × List Char :=
  match cs with
  | e :: rest =>
    if e = 'e' || e = 'E' then
      let (sgn, rest') :=
        match rest with
        | s :: r => if s = '+' || s = '-' then ([s], r) else ([], rest)
        | [] => ([], rest)
      if rest'.takeWhile Char.isDigit ≠ [] then
        (e :: sgn ++ rest'.takeWhile Char.isDigit, rest'.dropWhile Char.isDigit)
      else ([], cs)
    else ([], cs)
  | [] => ([], cs)

/-- A JSON number lexeme: optional minus, integer part, optional
fraction, optional exponent.  A `.` or `e` that does not begin a valid
fraction or exponent is left unconsumed (and the caller's end-of-input
check then fails, as `json.loads` would). -/
def parseNumber (cs : List Char) : Option (List Char × List Char) :=
  let (neg, cs1) :=
    match cs with
    | '-' :: r => ((['-'] : List Char), r)
    | _ => ([], cs)
  match parseIntPart cs1 with
  | none => none
  | some (ip, cs2) =>
    let (fp, cs3) := parseFracPart cs2
    let (ep, cs4) := parseExpPart cs3
    some (neg ++ ip ++ fp ++ ep, cs4)

mutual

/-- Parse a JSON value (fuel-indexed recursion over the nesting and
element structure; callers supply ample fuel). -/
def parseVal : Nat → List Char → Option (Json × List Char)
  | 0, _ => none
  | Nat.succ fuel, cs =>
    match skipWs cs with
    | 'n' :: 'u' :: 'l' :: 'l' :: r => some (Json.null, r)
    | 't' :: 'r' :: 'u' :: 'e' :: r => some (Json.bool true, r)
    | 'f' :: 'a' :: 'l' :: 's' :: 'e' :: r => some (Json.bool false, r)
    | '"' :: r => (parseJString r).map fun (s, r') => (Json.str s, r')
    | '[' :: r => (parseArrItems fuel r).map fun (xs, r') => (Json.arr xs, r')
    | '\x7b' :: r => (parseObjItems fuel r).map fun (fs, r') => (Json.obj fs, r')
    | cs' => (parseNumber cs').map fun (lx, r') => (Json.num lx, r')

/-- Parse the items of an array after `[`: empty array or first value
then the comma-separated rest. -/
def parseArrItems : Nat → List Char → Option (List Json × List Char)
  | 0, _ => none
  | Nat.succ fuel, cs =>
    match skipWs cs with
    | ']' :: r => some ([], r)
    | cs' =>
      match parseVal fuel cs' with
      | none => none
      | some (v, r) => parseArrRest fuel v r

/-- After one array item: `]` closes, `,` continues. -/
def parseArrRest : Nat → Json → List Char → Option (List Json × List Char)
  | 0, _, _ => none
  | Nat.succ fuel, v, cs =>
    match skipWs cs with
    | ']' :: r => some ([v], r)
    | ',' :: r =>
      match parseVal fuel r with
      | none => none
      | some (v2, r2) =>
        match parseArrRest fuel v2 r2 with
        | none => none
        | some (vs, r3) => some (v :: vs, r3)
    | _ => none

/-- Parse the members of an object after an opening brace: empty object
or first member then the comma-separated rest. -/
def parseObjItems : Nat → List Char → Option (List (List Char × Json) × List Char)
  | 0, _ => none
  | Nat.succ fuel, cs =>
    match skipWs cs with
    | '\x7d' :: r => some ([], r)
    | cs' =>
      match parseMember fuel cs' with
      | none => none
      | some (kv, r) => parseObjRest fuel kv r

/-- After one object member: a closing brace ends, `,` continues. -/
def parseObjRest : Nat → (List Char × Json) → List Char →
    Option (List (List Char × Json) × List Char)
  | 0, _, _ => none
  | Nat.succ fuel, kv, cs =>
    match skipWs cs with
    | '\x7d' :: r => some ([kv], r)
    | ',' :: r =>
      match parseMember fuel r with
      | none => none
      | some (kv2, r2) =>
        match parseObjRest fuel kv2 r2 with
        | none => none
        | some (kvs, r3) => some (kv :: kvs, r3)
    | _ => none

/-- One object member: `"key" : value`. -/
def parseMember : Nat → List Char → Option ((List Char × Json) × List Char)
  | 0, _ => none
  | Nat.succ fuel, cs =>
    match skipWs cs with
    | '"' :: r =>
      match parseJString r with
      | none => none
      | some (k, r2) =>
        match skipWs r2 with
        | ':' :: r3 =>
          match parseVal fuel r3 with
          | none => none
          | some (v, r4) => some ((k, v), r4)
        | _ => none
    | _ => none

end

/-- Python `json.loads`: parse one JSON value and require that only whitespace
follows (`json.loads` raises on extra data).  `none` models
`json.JSONDecodeError`. -/
def json_loads (cs : List Char) : Option Json :=
  match parseVal (2 * cs.length + 8) cs with
  | some (v, rest) => if (skipWs rest).isEmpty then some v else none
  | none => none

/-- The `AnalysisResult` as the analyzer constructs it, over character
lists (the JSON layer works on `List Char`). -/
structure JAnalysisResult where
  relevance : RelevanceLevel
  insights : List (List Char)
  suggestions : List (List Char)
deriving DecidableEq, Repr

/-- Python `re.search(r"\x7b.*\x7d", response_text, re.DOTALL)`
(`analyzer.py` line 87): with `DOTALL` and a greedy `.*`, the match —
when one exists — runs from the first `\x7b` that has a `\x7d` somewhere
after it (equivalently, the first `\x7b` before the last `\x7d`) to the
last `\x7d` of the whole response. -/
def braceSpan (cs : List Char) : Option (List Char) :=
  match cs.findIdx? (fun c => c = '\x7b'),
        (cs.reverse.findIdx? (fun c => c = '\x7d')).map (fun j => cs.length - 1 - j) with
  | some i, some j => if i < j then some ((cs.drop i).take (j - i + 1)) else none
  | _, _ => none

/-- Python `dict` built from JSON object members: a duplicated key keeps
its last value, so lookups read the rightmost binding. -/
def lookupLast (fields : List (List Char × Json)) (key : List Char) : Option Json :=
  (fields.reverse.find? fun kv => kv.1 = key).map fun kv => kv.2

/-- Constructor `RelevanceLevel(value)` (`analyzer.py` line 94): only the exact
strings `"high"`, `"medium"` and `"low"` construct a level; everything
else raises `ValueError`. -/
def relevanceFromJson : Json → Option RelevanceLevel
  | Json.str s =>
    if s = chars "high" then some RelevanceLevel.high
    else if s = chars "medium" then some RelevanceLevel.medium
    else if s = chars "low" then some RelevanceLevel.low
    else none
  | _ => none

/-- Pydantic validation of a `list[str]` field (`analyzer.py` lines
95-96): the JSON value must be an array whose elements are all strings;
anything else raises a `ValidationError`, a subclass of `ValueError`. -/
def strListFromJson : Json → Option (List (List Char))
  | Json.arr xs =>
    xs.mapM fun j =>
      match j with
      | Json.str s => some s
      | _ => none
  | _ => none

/-- The deterministic fallback result (`analyzer.py` lines 100-104):
relevance LOW, one insight reporting the parsing error, one suggestion
to retry.  (The Python insight interpolates `str(e)` after the fixed
prefix; the model keeps the fixed prefix.) -/
def analysisFallback : JAnalysisResult :=
  ⟨RelevanceLevel.low,
   [chars "Analysis parsing error"],
   [chars "Please try again or review the content manually"]⟩

/-- The response-parsing tail of `Analyzer.analyze`
(`analyzer.py` lines 84-104).  `none` models an exception escaping
`analyze`: the `except (json.JSONDecodeError, ValueError)` clause does
not catch the `AttributeError` raised by `result_data.get` when the
parsed JSON value is not an object.  `some r` models a returned
`AnalysisResult`. -/
def analyze_parse (response_text : List Char) : Option JAnalysisResult :=
  let candidate := (braceSpan response_text).getD response_text
  match json_loads candidate with
  | none => some analysisFallback
  | some (Json.obj fields) =>
    match relevanceFromJson ((lookupLast fields (chars "relevance")).getD (Json.str (chars "low"))) with
    | none => some analysisFallback
    | some rel =>
      match strListFromJson ((lookupLast fields (chars "insights")).getD (Json.arr [])),
            strListFromJson ((lookupLast fields (chars "suggestions")).getD (Json.arr [])) with
      | some ins, some sug => some ⟨rel, ins, sug⟩
      | _, _ => some analysisFallback
  | some _ => none

/-- Is the JSON value an object? -/
def Json.isObj : Json → Bool
  | Json.obj _ => true
  | _ => false

/-- Does the string parse (by `json.loads`) as a JSON object? -/
def isJsonObjString (cs : List Char) : Bool :=
  match json_loads cs with
  | some (Json.obj _) => true
  | _ => false

/-- All contiguous substrings of a character list. -/
def allSubstrings (l : List Char) : List (List Char) :=
  l.tails.flatMap fun t => (List.range (t.length + 1)).map fun k => t.take k

/-! ## Spec-side definitions used for refinement comparisons -/

/-- Modelled from the spec (§3, §4.2, §8): the combined-context string
concatenates one section per *present* field in the fixed order spec,
build plan, ideas, joined by the section marker, and is a fixed sentinel
when all three are absent.  The arguments are the present texts. -/
def specCombinedContext (spec build_plan ideas : Option String) : String :=
  let sections : List String :=
    (match spec with
     | some s => ["## Project Specification\n\n" ++ s]
     | none => []) ++
    (match build_plan with
     | some s => ["## Build Plan\n\n" ++ s]
     | none => []) ++
    (match ideas with
     | some s => ["## Ideas\n\n" ++ s]
     | none => [])
  if sections.isEmpty then "No project context available."
  else String.intercalate "\n\n---\n\n" sections

/-- The text of a context field that the implementation treats as
present: a non-`None`, non-empty document (Python truthiness). -/
def presentText : Option String → Option String
  | some s => if s.data.isEmpty then none else some s
  | none => none

/-- Map a field that is present-but-empty to an absent field, leaving
every other field unchanged. -/
def blankAsAbsent : Option String → Option String
  | some s => if s.data.isEmpty then none else some s
  | none => none

/-! ## Helper lemmas -/

theorem truthyStr_blankAsAbsent (o : Option String) :
    truthyStr (blankAsAbsent o) = truthyStr o := by
  match o with
  | none => rfl
  | some ⟨[]⟩ => rfl
  | some ⟨c :: cs⟩ => rfl

/-! ## Claim C9 -/

/-- C9: `detect_content_type` never yields `UNKNOWN`; the Twitter/X
substring check on the lowercased host takes precedence over the YouTube
check; and a host merely containing `"x.com"` — such as `netflix.com` —
is classified TWITTER. -/
theorem detect_content_type_total_and_twitter_precedence :
    ∀ url : List Char,
      detect_content_type url ≠ ContentType.unknown ∧
      ((containsSubL ((netlocOf url).map Char.toLower) (chars "twitter.com") = true ∨
        containsSubL ((netlocOf url).map Char.toLower) (chars "x.com") = true) →
        detect_content_type url = ContentType.twitter) ∧
      detect_content_type (chars "https://netflix.com/series") = ContentType.twitter ∧
      detect_content_type (chars "https://x.com.youtube.com/watch?v=abc") = ContentType.twitter := by
  intro url
  refine ⟨?_, ?_, by decide, by decide⟩
  · unfold detect_content_type
    dsimp only
    split_ifs <;> decide
  · intro h
    unfold detect_content_type
    dsimp only
    rcases h with h | h <;> simp [h]

/-- Witness for C9 at a concrete URL. -/
theorem detect_content_type_total_and_twitter_precedence_witness :
    detect_content_type (chars "https://twitter.com/user/status/1") = ContentType.twitter :=
  (detect_content_type_total_and_twitter_precedence (chars "https://twitter.com/user/status/1")).2.1
    (Or.inl (by decide))

/-! ## Claim C5 -/

/-- C5 counterexample: the claim states the route's manual-content
classification equals `detect_content_type` for every URL, but the route
checks the raw case-sensitive URL string while the detector checks the
lowercased host: an upper-case host is ARTICLE for the route and YOUTUBE
for the detector. -/
theorem route_manual_type_counterexample :
    routeManualContentType (chars "https://YOUTUBE.COM/watch?v=abc") ≠
      detect_content_type (chars "https://YOUTUBE.COM/watch?v=abc") := by
  decide

/-- C5 (amended): the route applies the same substring markers in the
same precedence order as `detect_content_type`, but over the whole raw
URL rather than the lowercased host; whenever each marker occurs in the
raw URL exactly when it occurs in the lowercased host, the two
classifications agree. -/
theorem route_manual_type_agrees_when_markers_consistent :
    ∀ url : List Char,
      (∀ m ∈ [chars "twitter.com", chars "x.com", chars "youtube.com", chars "youtu.be"],
        containsSubL url m = containsSubL ((netlocOf url).map Char.toLower) m) →
      routeManualContentType url = detect_content_type url := by
  intro url h
  have h1 := h (chars "twitter.com") (by decide)
  have h2 := h (chars "x.com") (by decide)
  have h3 := h (chars "youtube.com") (by decide)
  have h4 := h (chars "youtu.be") (by decide)
  unfold routeManualContentType detect_content_type
  rw [h1, h2, h3, h4]

/-- Witness for C5's amended theorem at a concrete URL. -/
theorem route_manual_type_agrees_when_markers_consistent_witness :
    routeManualContentType (chars "https://twitter.com/a") =
      detect_content_type (chars "https://twitter.com/a") :=
  route_manual_type_agrees_when_markers_consistent (chars "https://twitter.com/a") (by decide)

/-! ## Claim C7 -/

/-- C7: `get_combined_context` is determined by the present (truthy)
fields: it equals the spec-side serialization of exactly those fields in
the fixed order spec, build plan, ideas, with the fixed marker, and
yields the sentinel when none is present. -/
theorem get_combined_context_refines_spec :
    ∀ ctx : ProjectContext,
      ctx.get_combined_context =
        specCombinedContext (presentText ctx.spec) (presentText ctx.build_plan)
          (presentText ctx.ideas) ∧
      (truthyStr ctx.spec = false ∧ truthyStr ctx.build_plan = false ∧
          truthyStr ctx.ideas = false →
        ctx.get_combined_context = "No project context available.") := by
  rintro ⟨n, sp, bp, id⟩
  constructor
  · rcases sp with _ | ⟨_ | ⟨c1, s1⟩⟩ <;> rcases bp with _ | ⟨_ | ⟨c2, s2⟩⟩ <;>
      rcases id with _ | ⟨_ | ⟨c3, s3⟩⟩ <;> rfl
  · rintro ⟨h1, h2, h3⟩
    show ProjectContext.get_combined_context _ = _
    unfold ProjectContext.get_combined_context
    simp_all

/-- Witness for C7 at the all-absent context. -/
theorem get_combined_context_refines_spec_witness :
    (ProjectContext.mk "p" none none none).get_combined_context =
      "No project context available." :=
  (get_combined_context_refines_spec ⟨"p", none, none, none⟩).2 ⟨rfl, rfl, rfl⟩

/-! ## Claim C10 -/

/-- C10: a context document that is present but empty behaves exactly
like an absent one: replacing empty fields by absent fields changes
neither `get_combined_context` nor the review route's no-context gate;
the all-empty context yields the sentinel and is rejected with the same
HTTP 400 precondition failure as the all-absent context. -/
theorem empty_context_fields_behave_as_absent :
    ∀ (n : String) (sp bp id : Option String),
      ProjectContext.get_combined_context ⟨n, blankAsAbsent sp, blankAsAbsent bp, blankAsAbsent id⟩ =
        ProjectContext.get_combined_context ⟨n, sp, bp, id⟩ ∧
      reviewContextGate n ⟨n, blankAsAbsent sp, blankAsAbsent bp, blankAsAbsent id⟩ =
        reviewContextGate n ⟨n, sp, bp, id⟩ ∧
      ProjectContext.get_combined_context ⟨n, some "", some "", some ""⟩ =
        "No project context available." ∧
      reviewContextGate n ⟨n, some "", some "", some ""⟩ =
        reviewContextGate n ⟨n, none, none, none⟩ ∧
      reviewContextGate n ⟨n, some "", some "", some ""⟩ =
        Except.error (400, "Project '" ++ n ++ "' not found or has no context files") := by
  intro n sp bp id
  refine ⟨?_, ?_, rfl, rfl, rfl⟩
  · rcases sp with _ | ⟨_ | ⟨c1, s1⟩⟩ <;> rcases bp with _ | ⟨_ | ⟨c2, s2⟩⟩ <;>
      rcases id with _ | ⟨_ | ⟨c3, s3⟩⟩ <;> rfl
  · unfold reviewContextGate
    rw [truthyStr_blankAsAbsent, truthyStr_blankAsAbsent, truthyStr_blankAsAbsent]

/-! ## Claim C3 -/

theorem insertStable_at_end (key : ProjectRelevance → Nat) (x : ProjectRelevance) :
    ∀ B : List ProjectRelevance, (∀ b ∈ B, ¬ key x < key b) →
      insertStable key x B = B ++ [x] := by
  intro B
  induction B with
  | nil => intro _; rfl
  | cons b bs ih =>
    intro h
    have hb := h b (List.mem_cons_self b bs)
    simp only [insertStable, if_neg hb]
    rw [ih fun y hy => h y (List.mem_cons_of_mem b hy)]
    rfl

theorem insertStable_zero_blocks (key : ProjectRelevance → Nat) (x : ProjectRelevance)
    (hx : key x = 0) :
    ∀ A B : List ProjectRelevance, (∀ a ∈ A, key a = 0) → (∀ b ∈ B, 1 ≤ key b) →
      insertStable key x (A ++ B) = A ++ x :: B := by
  intro A
  induction A with
  | nil =>
    intro B _ hB
    cases B with
    | nil => rfl
    | cons b bs =>
      have hb := hB b (List.mem_cons_self b bs)
      have : key x < key b := by omega
      simp [insertStable, this]
  | cons a as ih =>
    intro B hA hB
    have ha := hA a (List.mem_cons_self a as)
    have : ¬ key x < key a := by omega
    simp only [List.cons_append, insertStable, if_neg this, List.append_eq]
    rw [ih B (fun y hy => hA y (List.mem_cons_of_mem a hy)) hB]

theorem foldl_insertStable_blocks (key : ProjectRelevance → Nat) :
    ∀ l A B : List ProjectRelevance,
      (∀ a ∈ A, key a = 0) → (∀ b ∈ B, key b = 1) → (∀ y ∈ l, key y ≤ 1) →
      l.foldl (fun acc x => insertStable key x acc) (A ++ B) =
        (A ++ l.filter fun y => key y == 0) ++ (B ++ l.filter fun y => key y == 1) := by
  intro l
  induction l with
  | nil => intro A B _ _ _; simp
  | cons x xs ih =>
    intro A B hA hB hl
    have hx : key x ≤ 1 := hl x (List.mem_cons_self x xs)
    have hxs : ∀ y ∈ xs, key y ≤ 1 := fun y hy => hl y (List.mem_cons_of_mem x hy)
    simp only [List.foldl_cons]
    by_cases h0 : key x = 0
    · rw [insertStable_zero_blocks key x h0 A B hA fun b hb => by rw [hB b hb]]
      have e : A ++ x :: B = (A ++ [x]) ++ B := by simp
      rw [e, ih (A ++ [x]) B
        (by
          intro a ha
          rcases List.mem_append.mp ha with h | h
          · exact hA a h
          · simp only [List.mem_singleton] at h; subst h; exact h0)
        hB hxs]
      have f0 : (x :: xs).filter (fun y => key y == 0) = x :: xs.filter fun y => key y == 0 := by
        simp [List.filter_cons, h0]
      have f1 : (x :: xs).filter (fun y => key y == 1) = xs.filter fun y => key y == 1 := by
        simp [List.filter_cons, h0]
      rw [f0, f1]
      simp
    · have h1 : key x = 1 := by omega
      rw [insertStable_at_end key x (A ++ B)
        (by
          intro y hy
          rcases List.mem_append.mp hy with h | h
          · have := hA y h; omega
          · have := hB y h; omega)]
      have e : (A ++ B) ++ [x] = A ++ (B ++ [x]) := by simp
      rw [e, ih A (B ++ [x]) hA
        (by
          intro b hb
          rcases List.mem_append.mp hb with h | h
          · exact hB b h
          · simp only [List.mem_singleton] at h; subst h; exact h1)
        hxs]
      have f0 : (x :: xs).filter (fun y => key y == 0) = xs.filter fun y => key y == 0 := by
        simp [List.filter_cons, h1]
      have f1 : (x :: xs).filter (fun y => key y == 1) = x :: xs.filter fun y => key y == 1 := by
        simp [List.filter_cons, h1]
      rw [f0, f1]
      simp

theorem mem_review_all_collect_relevance :
    ∀ (verdicts : List (String × AnalysisResult)) (r : ProjectRelevance),
      r ∈ (review_all_collect verdicts).1 →
      r.relevance = RelevanceLevel.high ∨ r.relevance = RelevanceLevel.medium := by
  intro verdicts
  induction verdicts with
  | nil => intro r h; simp [review_all_collect] at h
  | cons v rest ih =>
    intro r h
    rcases v with ⟨n, a⟩
    by_cases hc : a.relevance = RelevanceLevel.high ∨ a.relevance = RelevanceLevel.medium
    · simp only [review_all_collect, if_pos hc] at h
      rcases List.mem_cons.mp h with h | h
      · subst h; exact hc
      · exact ih r h
    · simp only [review_all_collect, if_neg hc] at h
      exact ih r h

theorem review_all_collect_logged :
    ∀ verdicts : List (String × AnalysisResult),
      (review_all_collect verdicts).2 =
        (review_all_collect verdicts).1.map fun r => r.project := by
  intro verdicts
  induction verdicts with
  | nil => rfl
  | cons v rest ih =>
    rcases v with ⟨n, a⟩
    by_cases hc : a.relevance = RelevanceLevel.high ∨ a.relevance = RelevanceLevel.medium
    · simp only [review_all_collect, if_pos hc, List.map_cons]
      rw [ih]
    · simp only [review_all_collect, if_neg hc]
      exact ih

/-- C3: in all-projects review mode, LOW verdicts are dropped, exactly
the HIGH/MEDIUM verdicts are retained (and logged), and the returned
list is the retained verdicts stably sorted — every HIGH entry precedes
every MEDIUM entry with the per-project iteration order preserved inside
each tier — as the concrete [MEDIUM, HIGH, LOW, HIGH, MEDIUM] example
shows. -/
theorem review_all_rank_stable_tiering :
    ∀ verdicts : List (String × AnalysisResult),
      review_all_rank verdicts =
        ((review_all_collect verdicts).1.filter fun r => r.relevance == RelevanceLevel.high) ++
        ((review_all_collect verdicts).1.filter fun r => r.relevance == RelevanceLevel.medium) ∧
      (∀ r ∈ review_all_rank verdicts, r.relevance ≠ RelevanceLevel.low) ∧
      (review_all_collect verdicts).2 =
        ((review_all_collect verdicts).1.map fun r => r.project) ∧
      review_all_rank
          [("p1", ⟨RelevanceLevel.medium, [], []⟩), ("p2", ⟨RelevanceLevel.high, [], []⟩),
           ("p3", ⟨RelevanceLevel.low, [], []⟩), ("p4", ⟨RelevanceLevel.high, [], []⟩),
           ("p5", ⟨RelevanceLevel.medium, [], []⟩)] =
        [⟨"p2", RelevanceLevel.high, [], []⟩, ⟨"p4", RelevanceLevel.high, [], []⟩,
         ⟨"p1", RelevanceLevel.medium, [], []⟩, ⟨"p5", RelevanceLevel.medium, [], []⟩] := by
  intro verdicts
  have key_le : ∀ y ∈ (review_all_collect verdicts).1,
      relevance_order y.relevance ≤ 1 := by
    intro y hy
    rcases mem_review_all_collect_relevance verdicts y hy with h | h <;>
      rw [h] <;> simp [relevance_order]
  have main : review_all_rank verdicts =
      ((review_all_collect verdicts).1.filter fun r => r.relevance == RelevanceLevel.high) ++
      ((review_all_collect verdicts).1.filter fun r => r.relevance == RelevanceLevel.medium) := by
    unfold review_all_rank pyStableSort
    have e : (review_all_collect verdicts).1.foldl
        (fun acc x => insertStable (fun r => relevance_order r.relevance) x acc) [] =
        (review_all_collect verdicts).1.foldl
        (fun acc x => insertStable (fun r => relevance_order r.relevance) x acc) ([] ++ []) := rfl
    rw [e, foldl_insertStable_blocks _ _ [] [] (by intro a h; simp at h)
      (by intro b h; simp at h) key_le]
    have e0 : (fun y : ProjectRelevance => relevance_order y.relevance == 0) =
        fun r : ProjectRelevance => r.relevance == RelevanceLevel.high := by
      funext y
      cases y.relevance <;> rfl
    have e1 : (fun y : ProjectRelevance => relevance_order y.relevance == 1) =
        fun r : ProjectRelevance => r.relevance == RelevanceLevel.medium := by
      funext y
      cases y.relevance <;> rfl
    rw [e0, e1]
    simp
  refine ⟨main, ?_, review_all_collect_logged verdicts, by decide⟩
  intro r hr
  rw [main] at hr
  rcases List.mem_append.mp hr with h | h <;>
    [skip; skip] <;>
    · have := (List.mem_filter.mp h).2
      intro hlow
      rw [hlow] at this
      simp_all

/-- Witness for C3: the head of the ranked concrete example is retained
and is not LOW. -/
theorem review_all_rank_stable_tiering_witness :
    (⟨"p2", RelevanceLevel.high, [], []⟩ : ProjectRelevance).relevance ≠ RelevanceLevel.low :=
  (review_all_rank_stable_tiering
      [("p1", ⟨RelevanceLevel.medium, [], []⟩), ("p2", ⟨RelevanceLevel.high, [], []⟩),
       ("p3", ⟨RelevanceLevel.low, [], []⟩), ("p4", ⟨RelevanceLevel.high, [], []⟩),
       ("p5", ⟨RelevanceLevel.medium, [], []⟩)]).2.1
    ⟨"p2", RelevanceLevel.high, [], []⟩ (by decide)

/-! ## Claim C6 -/

theorem splitLines_of_no_newline : ∀ l : List Char, nl ∉ l → splitLines l = [l] := by
  intro l
  induction l with
  | nil => intro _; rfl
  | cons c cs ih =>
    intro h
    have hc : ¬ c = nl := fun e => h (e ▸ List.mem_cons_self c cs)
    have hcs : nl ∉ cs := fun e => h (List.mem_cons_of_mem c e)
    simp only [splitLines, if_neg hc, ih hcs]

theorem dropWhile_eq_self_of_all_false (p : Char → Bool) :
    ∀ l : List Char, (∀ c ∈ l, p c = false) → l.dropWhile p = l := by
  intro l h
  cases l with
  | nil => rfl
  | cons c cs =>
    have := h c (List.mem_cons_self c cs)
    simp [List.dropWhile, this]

theorem pyStrip_of_no_space :
    ∀ l : List Char, (∀ c ∈ l, isPySpace c = false) → pyStrip l = l := by
  intro l h
  unfold pyStrip
  rw [dropWhile_eq_self_of_all_false _ l h,
    dropWhile_eq_self_of_all_false _ l.reverse (fun c hc => h c (List.mem_reverse.mp hc)),
    List.reverse_reverse]

theorem articleNormalize_replicate_a (n : Nat) (hn : 0 < n) :
    articleNormalize (List.replicate n 'a') = List.replicate n 'a' := by
  unfold articleNormalize
  have hnl : nl ∉ List.replicate n 'a' := by
    intro h
    have := List.eq_of_mem_replicate h
    simp [nl] at this
  rw [splitLines_of_no_newline _ hnl]
  have hs : pyStrip (List.replicate n 'a') = List.replicate n 'a' := by
    apply pyStrip_of_no_space
    intro c hc
    rw [List.eq_of_mem_replicate hc]
    rfl
  simp only [List.map_cons, List.map_nil, hs, List.filter]
  have hne : (List.replicate n 'a').isEmpty = false := by
    cases n with
    | zero => omega
    | succ m => simp [List.replicate_succ]
  simp [hne, joinLines]

/-- C6: whenever the whitespace-normalized article content exceeds the
10,000-character budget, the output is exactly the first 10,000
characters followed by one complete trailing marker (truncation is the
last step, applied to the normalized text); video transcripts are
truncated the same way at their separate 15,000-character budget with
their own marker, and `fetch_youtube` applies exactly that truncation to
the joined transcript. -/
theorem truncation_after_normalization_exact :
    ∀ (text transcript : List Char) (url : List Char) (titleR : Option (List Char))
      (segs : List (List Char)) (fc : FetchedContent),
      (10000 < (articleNormalize text).length →
        articleContent text = (articleNormalize text).take 10000 ++ articleMarker ∧
        (articleContent text).length = 10000 + articleMarker.length ∧
        articleMarker <:+ articleContent text) ∧
      (15000 < transcript.length →
        pyTruncate 15000 transcriptMarker transcript =
          transcript.take 15000 ++ transcriptMarker ∧
        (pyTruncate 15000 transcriptMarker transcript).length =
          15000 + transcriptMarker.length) ∧
      (fetch_youtube url titleR (TranscriptOutcome.segments segs) = Except.ok fc →
        fc.content = pyTruncate 15000 transcriptMarker (joinSpace segs)) := by
  intro text transcript url titleR segs fc
  refine ⟨?_, ?_, ?_⟩
  · intro h
    have e : articleContent text = (articleNormalize text).take 10000 ++ articleMarker := by
      unfold articleContent
      simp only [if_pos h]
    refine ⟨e, ?_, ?_⟩
    · rw [e]
      simp [List.length_take, Nat.min_eq_left (Nat.le_of_lt h)]
    · rw [e]
      exact List.suffix_append _ _
  · intro h
    have e : pyTruncate 15000 transcriptMarker transcript =
        transcript.take 15000 ++ transcriptMarker := by
      unfold pyTruncate
      simp only [if_pos h]
    refine ⟨e, ?_⟩
    rw [e]
    simp [List.length_take, Nat.min_eq_left (Nat.le_of_lt h)]
  · intro h
    unfold fetch_youtube at h
    cases he : extract_youtube_id url with
    | none => rw [he] at h; exact absurd h (by simp)
    | some i =>
      rw [he] at h
      simp only [Except.ok.injEq] at h
      rw [← h]

/-- Witness for C6 on a 10,001-character article text. -/
theorem truncation_after_normalization_exact_witness :
    articleContent (List.replicate 10001 'a') =
      (articleNormalize (List.replicate 10001 'a')).take 10000 ++ articleMarker :=
  ((truncation_after_normalization_exact (List.replicate 10001 'a') [] [] none []
      ⟨[], [], [], ContentType.article⟩).1
    (by rw [articleNormalize_replicate_a 10001 (by norm_num), List.length_replicate]
        norm_num)).1

/-! ## Claim C2 -/

/-- C2 counterexample: a non-404 HTTP error (500) on a single context
file raises `HTTPStatusError` inside the fetch, yet
`load_project_context` still returns successfully with that field
absent — it does not fail with a `ContextError` as the claim states. -/
theorem load_project_context_counterexample :
    fetch_file_body (FetchOutcome.resp 500 ⟨none⟩) =
      Except.error (PyErr.httpStatusError 500) ∧
    load_project_context "p" (FetchOutcome.resp 500 ⟨none⟩)
        (FetchOutcome.resp 200 ⟨some "B"⟩) (FetchOutcome.resp 200 ⟨some "I"⟩) =
      Except.ok ⟨"p", none, some "B", some "I"⟩ :=
  ⟨rfl, rfl⟩

/-- C2 (amended): `list_projects` fails on any transport-level failure
of the listing request (request exception or non-2xx status), while
`load_project_context` never fails: a per-file 404 yields an absent
field, and every other per-file failure (non-404 HTTP error or request
exception) equally degrades that field to absent without aborting the
load; a successful fetch populates the field. -/
theorem context_loader_error_handling :
    ∀ (name : String) (o1 o2 o3 lo : FetchOutcome)
      (items : List ListingItem) (descO : String → FetchOutcome),
      (∀ e, load_project_context name o1 o2 o3 ≠ Except.error e) ∧
      (∀ ctx d, load_project_context name o1 o2 o3 = Except.ok ctx →
        o1 = FetchOutcome.resp 404 d → ctx.spec = none) ∧
      (∀ ctx e, load_project_context name o1 o2 o3 = Except.ok ctx →
        fetch_file_body o1 = Except.error e → ctx.spec = none) ∧
      (∀ ctx c, load_project_context name o1 o2 o3 = Except.ok ctx →
        fetch_file_body o1 = Except.ok (some c) → ctx.spec = some c) ∧
      (∀ st d, lo = FetchOutcome.resp st d → isErrorStatus st = false →
        ∃ ps, list_projects lo items descO = Except.ok ps) ∧
      (∀ st d, lo = FetchOutcome.resp st d → isErrorStatus st = true →
        list_projects lo items descO = Except.error (PyErr.httpStatusError st)) ∧
      (lo = FetchOutcome.exn →
        list_projects lo items descO = Except.error PyErr.requestError) := by
  intro name o1 o2 o3 lo items descO
  refine ⟨?_, ?_, ?_, ?_, ?_, ?_, ?_⟩
  · intro e h
    exact absurd h (by unfold load_project_context; simp)
  · intro ctx d hok h404
    have : ctx = ⟨name, fetch_file o1, fetch_file o2, fetch_file o3⟩ := by
      unfold load_project_context at hok
      exact (Except.ok.injEq _ _ ▸ hok.symm)
    rw [this, h404]
    rfl
  · intro ctx e hok herr
    have hc : ctx = ⟨name, fetch_file o1, fetch_file o2, fetch_file o3⟩ := by
      unfold load_project_context at hok
      exact (Except.ok.injEq _ _ ▸ hok.symm)
    rw [hc]
    show fetch_file o1 = none
    unfold fetch_file
    rw [herr]
  · intro ctx c hok hokc
    have hc : ctx = ⟨name, fetch_file o1, fetch_file o2, fetch_file o3⟩ := by
      unfold load_project_context at hok
      exact (Except.ok.injEq _ _ ▸ hok.symm)
    rw [hc]
    show fetch_file o1 = some c
    unfold fetch_file
    rw [hokc]
  · intro st d hlo hst
    rw [hlo]
    unfold list_projects
    dsimp only
    rw [hst]
    simp
  · intro st d hlo hst
    rw [hlo]
    unfold list_projects
    dsimp only
    rw [hst]
    simp
  · intro hlo
    rw [hlo]
    rfl

/-- Witness for C2's amended theorem at concrete outcomes. -/
theorem context_loader_error_handling_witness :
    (ProjectContext.mk "p" none (some "B") (some "I")).spec = none :=
  (context_loader_error_handling "p" (FetchOutcome.resp 404 ⟨none⟩)
      (FetchOutcome.resp 200 ⟨some "B"⟩) (FetchOutcome.resp 200 ⟨some "I"⟩)
      FetchOutcome.exn [] (fun _ => FetchOutcome.exn)).2.1
    ⟨"p", none, some "B", some "I"⟩ ⟨none⟩ rfl rfl

/-! ## Claim C8 -/

/-- C8: `fetch_youtube` raises a fetch error exactly when no pattern in
the prioritized URL-pattern list yields a video id; when an id is found,
a failed title fetch falls back to the placeholder title without
aborting, and a disabled or missing transcript yields a returned
`FetchedContent` whose content is the literal inline error-marker
string (as truncated by the transcript budget) rather than raising. -/
theorem fetch_youtube_hard_and_soft_failures :
    ∀ (url : List Char) (titleR : Option (List Char)) (tr : TranscriptOutcome),
      ((∃ e, fetch_youtube url titleR tr = Except.error e) ↔
        extract_youtube_id url = none) ∧
      (∀ fc, fetch_youtube url titleR tr = Except.ok fc → titleR = none →
        fc.title = chars "YouTube Video") ∧
      (∀ m, tr = TranscriptOutcome.disabled m ∨ tr = TranscriptOutcome.notFound m →
        extract_youtube_id url ≠ none →
        ∃ fc, fetch_youtube url titleR tr = Except.ok fc ∧
          fc.content = pyTruncate 15000 transcriptMarker
            (chars "[Transcript not available: " ++ m ++ [']'])) := by
  intro url titleR tr
  cases he : extract_youtube_id url with
  | none =>
    refine ⟨⟨fun _ => rfl, fun _ => ?_⟩, ?_, ?_⟩
    · exact ⟨_, by unfold fetch_youtube; rw [he]⟩
    · intro fc hok _
      unfold fetch_youtube at hok
      rw [he] at hok
      exact absurd hok (by simp)
    · intro m _ hne
      exact absurd rfl hne
  | some i =>
    refine ⟨⟨?_, fun h => ?_⟩, ?_, ?_⟩
    · rintro ⟨e, hr⟩
      unfold fetch_youtube at hr
      rw [he] at hr
      exact absurd hr (by simp)
    · exact absurd h (by simp)
    · intro fc hok ht
      unfold fetch_youtube at hok
      rw [he] at hok
      simp only [Except.ok.injEq] at hok
      rw [← hok, ht]
      rfl
    · intro m hm _
      refine ⟨_, by unfold fetch_youtube; rw [he], ?_⟩
      rcases hm with hm | hm <;> rw [hm]

/-- Witness for C8 at a concrete URL with a disabled transcript. -/
theorem fetch_youtube_hard_and_soft_failures_witness :
    ∃ fc, fetch_youtube (chars "https://youtu.be/dQw4w9WgXcQ") none
        (TranscriptOutcome.disabled (chars "d")) = Except.ok fc ∧
      fc.content = pyTruncate 15000 transcriptMarker
        (chars "[Transcript not available: " ++ chars "d" ++ [']']) :=
  (fetch_youtube_hard_and_soft_failures (chars "https://youtu.be/dQw4w9WgXcQ") none
      (TranscriptOutcome.disabled (chars "d"))).2.2 (chars "d")
    (Or.inl rfl) (by decide)

/-! ## Claim C1 -/

/-- C1 counterexample: the response `"[]"` contains no JSON object at
all (no substring of it parses as one), so by the claim the result
should be the LOW fallback with no exception propagating; but the code
parses the whole response to a JSON array, and the subsequent
`result_data.get` raises an `AttributeError` that the
`except (json.JSONDecodeError, ValueError)` clause does not catch —
the exception propagates out of `analyze` (modelled by `none`). -/
theorem analyze_parse_counterexample :
    (allSubstrings (chars "[]")).all (fun sub => !isJsonObjString sub) = true ∧
    analyze_parse (chars "[]") = none := by
  constructor
  · decide
  · rfl

/-- C1 (amended): keyed to the code's first-brace-to-last-brace
extraction (falling back to the whole response when the span is absent):
if the candidate fails to parse as JSON, the result is the deterministic
LOW fallback with exactly one parsing-failure insight and one retry
suggestion; if the candidate parses as a JSON object, the returned
fields equal that object's (validated) fields; but a candidate parsing
to a non-object JSON value makes an `AttributeError` propagate out of
`analyze` — in exactly that case the call fails outward. -/
theorem analyze_parse_characterization :
    ∀ response_text : List Char,
      (json_loads ((braceSpan response_text).getD response_text) = none →
        analyze_parse response_text = some analysisFallback ∧
        analysisFallback.relevance = RelevanceLevel.low ∧
        analysisFallback.insights.length = 1 ∧
        analysisFallback.suggestions.length = 1) ∧
      (∀ fields rel ins sug,
        json_loads ((braceSpan response_text).getD response_text) =
          some (Json.obj fields) →
        relevanceFromJson
            ((lookupLast fields (chars "relevance")).getD (Json.str (chars "low"))) =
          some rel →
        strListFromJson ((lookupLast fields (chars "insights")).getD (Json.arr [])) =
          some ins →
        strListFromJson ((lookupLast fields (chars "suggestions")).getD (Json.arr [])) =
          some sug →
        analyze_parse response_text = some ⟨rel, ins, sug⟩) ∧
      (analyze_parse response_text = none ↔
        ∃ j, json_loads ((braceSpan response_text).getD response_text) = some j ∧
          j.isObj = false) := by
  intro response_text
  refine ⟨?_, ?_, ?_⟩
  · intro h
    refine ⟨?_, rfl, rfl, rfl⟩
    unfold analyze_parse
    dsimp only
    rw [h]
  · intro fields rel ins sug hobj hrel hins hsug
    unfold analyze_parse
    dsimp only
    simp only [hobj, hrel, hins, hsug]
  · constructor
    · intro h
      unfold analyze_parse at h
      dsimp only at h
      cases hj : json_loads ((braceSpan response_text).getD response_text) with
      | none => exact absurd (hj ▸ h) (by simp)
      | some j =>
        refine ⟨j, rfl, ?_⟩
        cases j with
        | obj fields =>
          exfalso
          simp only [hj] at h
          cases hr : relevanceFromJson
              ((lookupLast fields (chars "relevance")).getD (Json.str (chars "low"))) with
          | none =>
            simp only [hr] at h
            exact Option.noConfusion h
          | some rel =>
            simp only [hr] at h
            cases hi : strListFromJson
                ((lookupLast fields (chars "insights")).getD (Json.arr [])) with
            | none =>
              simp only [hi] at h
              exact Option.noConfusion h
            | some ins =>
              simp only [hi] at h
              cases hs : strListFromJson
                  ((lookupLast fields (chars "suggestions")).getD (Json.arr [])) with
              | none =>
                simp only [hs] at h
                exact Option.noConfusion h
              | some sug =>
                simp only [hs] at h
                exact Option.noConfusion h
        | null => rfl
        | bool b => rfl
        | num lx => rfl
        | str s => rfl
        | arr xs => rfl
    · rintro ⟨j, hj, hobj⟩
      unfold analyze_parse
      dsimp only
      rw [hj]
      cases j with
      | obj fields => exact absurd hobj (by simp [Json.isObj])
      | null => rfl
      | bool b => rfl
      | num lx => rfl
      | str s => rfl
      | arr xs => rfl

/-- Witness for C1's amended theorem on a well-formed response. -/
theorem analyze_parse_characterization_witness :
    analyze_parse
        (chars "\x7b\"relevance\": \"high\", \"insights\": [\"a\"], \"suggestions\": [\"b\"]\x7d") =
      some ⟨RelevanceLevel.high, [chars "a"], [chars "b"]⟩ :=
  (analyze_parse_characterization
      (chars "\x7b\"relevance\": \"high\", \"insights\": [\"a\"], \"suggestions\": [\"b\"]\x7d")).2.1
    [(chars "relevance", Json.str (chars "high")),
     (chars "insights", Json.arr [Json.str (chars "a")]),
     (chars "suggestions", Json.arr [Json.str (chars "b")])]
    RelevanceLevel.high [chars "a"] [chars "b"] rfl rfl rfl rfl

/-! ## Claim C4: helper lemmas on lines, joining and counting -/

theorem splitLines_cons_nl_head (rest : List Char) :
    splitLines (nl :: rest) = [] :: splitLines rest := by
  simp [splitLines]

theorem splitLines_cons_other (c : Char) (rest : List Char) (h : ¬ c = nl) :
    splitLines (c :: rest) =
      match splitLines rest with
      | [] => [[c]]
      | l :: ls => (c :: l) :: ls := by
  simp [splitLines, h]

theorem splitLines_ne_nil : ∀ l : List Char, splitLines l ≠ [] := by
  intro l
  cases l with
  | nil => simp [splitLines]
  | cons c cs =>
    by_cases hc : c = nl
    · subst hc
      rw [splitLines_cons_nl_head]
      simp
    · rw [splitLines_cons_other c cs hc]
      cases h : splitLines cs <;> simp

theorem splitLines_append_nl :
    ∀ a b : List Char, splitLines (a ++ nl :: b) = splitLines a ++ splitLines b := by
  intro a b
  induction a with
  | nil =>
    rw [List.nil_append, splitLines_cons_nl_head]
    rfl
  | cons c cs ih =>
    by_cases hc : c = nl
    · subst hc
      rw [List.cons_append, splitLines_cons_nl_head, splitLines_cons_nl_head, ih,
        List.cons_append]
    · rw [List.cons_append, splitLines_cons_other c _ hc, splitLines_cons_other c cs hc, ih]
      cases hs : splitLines cs with
      | nil => exact absurd hs (splitLines_ne_nil cs)
      | cons l ls => simp

theorem head_prefix_of_splitLines :
    ∀ (l : List Char) (hd : List Char) (tl : List (List Char)),
      splitLines l = hd :: tl → hd <+: l := by
  intro l
  induction l with
  | nil =>
    intro hd tl h
    have : ([] : List Char) = hd := by
      have e : splitLines ([] : List Char) = [[]] := rfl
      rw [e] at h
      exact (List.cons.injEq _ _ _ _ ▸ h).1
    rw [← this]
  | cons c cs ih =>
    intro hd tl h
    by_cases hc : c = nl
    · subst hc
      rw [splitLines_cons_nl_head] at h
      have : ([] : List Char) = hd := (List.cons.injEq _ _ _ _ ▸ h).1
      rw [← this]
      exact List.nil_prefix
    · rw [splitLines_cons_other c cs hc] at h
      cases hs : splitLines cs with
      | nil =>
        exact absurd hs (splitLines_ne_nil cs)
      | cons l ls =>
        rw [hs] at h
        have : c :: l = hd := (List.cons.injEq _ _ _ _ ▸ h).1
        rw [← this]
        exact List.cons_prefix_cons.mpr ⟨rfl, ih l ls hs⟩

theorem infix_of_mem_splitLines :
    ∀ (l : List Char) (p : List Char), p ∈ splitLines l → p <:+: l := by
  intro l
  induction l with
  | nil =>
    intro p h
    have e : splitLines ([] : List Char) = [[]] := rfl
    rw [e, List.mem_singleton] at h
    subst h
    exact List.nil_infix
  | cons c cs ih =>
    intro p h
    by_cases hc : c = nl
    · subst hc
      rw [splitLines_cons_nl_head] at h
      rcases List.mem_cons.mp h with h | h
      · subst h; exact List.nil_infix
      · rcases ih p h with ⟨s, t, rfl⟩
        exact ⟨nl :: s, t, by simp⟩
    · rw [splitLines_cons_other c cs hc] at h
      cases hs : splitLines cs with
      | nil => exact absurd hs (splitLines_ne_nil cs)
      | cons l ls =>
        rw [hs] at h
        rcases List.mem_cons.mp h with h | h
        · subst h
          exact List.IsPrefix.isInfix
            (List.cons_prefix_cons.mpr ⟨rfl, head_prefix_of_splitLines cs l ls hs⟩)
        · have hmem : p ∈ splitLines cs := by rw [hs]; exact List.mem_cons_of_mem l h
          rcases ih p hmem with ⟨s, t, rfl⟩
          exact ⟨c :: s, t, by simp⟩

theorem containsSubL_eq_true_iff (hay needle : List Char) :
    containsSubL hay needle = true ↔ needle <:+: hay := by
  unfold containsSubL
  rw [List.any_eq_true]
  constructor
  · rintro ⟨t, ht, hpre⟩
    have h1 := List.isPrefixOf_iff_prefix.mp hpre
    have h2 := (List.mem_tails t hay).mp ht
    have h3 := List.IsPrefix.isInfix h1
    have h4 := List.IsSuffix.isInfix h2
    exact h3.trans h4
  · intro h
    rcases List.infix_iff_prefix_suffix.mp h with ⟨t, hp, hs⟩
    exact ⟨t, (List.mem_tails t hay).mpr hs, List.isPrefixOf_iff_prefix.mpr hp⟩

theorem headerLineCount_nil (d : List Char) : headerLineCount [] d = 0 := rfl

theorem headerLineCount_append_nl (a b d : List Char) :
    headerLineCount (a ++ nl :: b) d = headerLineCount a d + headerLineCount b d := by
  unfold headerLineCount
  rw [splitLines_append_nl, List.countP_append]

theorem headerLineCount_cons_nl (s d : List Char) :
    headerLineCount (nl :: s) d = headerLineCount s d := by
  have : nl :: s = [] ++ nl :: s := rfl
  rw [this, headerLineCount_append_nl, headerLineCount_nil]
  omega

theorem headerLineCount_snoc_nl (a d : List Char) :
    headerLineCount (a ++ [nl]) d = headerLineCount a d := by
  have : a ++ [nl] = a ++ nl :: [] := rfl
  rw [this, headerLineCount_append_nl, headerLineCount_nil]
  omega

theorem headerLineCount_no_nl (s d : List Char) (h : nl ∉ s) :
    headerLineCount s d = if s = chars "## " ++ d then 1 else 0 := by
  unfold headerLineCount
  rw [splitLines_of_no_newline s h, List.countP_cons, List.countP_nil]
  by_cases he : s = chars "## " ++ d
  · simp [he]
  · simp [he]

theorem headerLineCount_eq_zero_of_not_contains (s d : List Char)
    (h : containsSubL s (chars "## " ++ d) = false) : headerLineCount s d = 0 := by
  unfold headerLineCount
  rw [List.countP_eq_zero]
  intro l hl
  simp only [decide_eq_true_eq]
  intro he
  subst he
  have : containsSubL s (chars "## " ++ d) = true :=
    (containsSubL_eq_true_iff s (chars "## " ++ d)).mpr (infix_of_mem_splitLines s _ hl)
  rw [this] at h
  exact Bool.noConfusion h

theorem headerLineCount_joinLines (d : List Char) :
    ∀ ps : List (List Char), ps ≠ [] →
      headerLineCount (joinLines ps) d = (ps.map fun q => headerLineCount q d).sum := by
  intro ps
  induction ps with
  | nil => intro h; exact absurd rfl h
  | cons x xs ih =>
    intro _
    cases xs with
    | nil => simp [joinLines]
    | cons y ys =>
      have : joinLines (x :: y :: ys) = x ++ nl :: joinLines (y :: ys) := rfl
      rw [this, headerLineCount_append_nl, ih (by simp)]
      simp

theorem joinLines_first_cons (t : List Char) (ps : List (List Char)) :
    joinLines ((nl :: t) :: ps) = nl :: joinLines (t :: ps) := by
  cases ps <;> rfl

theorem infix_of_mem_joinLines :
    ∀ (ps : List (List Char)) (p : List Char), p ∈ ps → p <:+: joinLines ps := by
  intro ps
  induction ps with
  | nil => intro p h; simp at h
  | cons q qs ih =>
    intro p h
    rcases List.mem_cons.mp h with h | h
    · subst h
      cases qs with
      | nil => exact List.infix_rfl
      | cons r rs =>
        have : joinLines (p :: r :: rs) = p ++ nl :: joinLines (r :: rs) := rfl
        rw [this]
        exact List.IsPrefix.isInfix (List.prefix_append p _)
    · cases qs with
      | nil => simp at h
      | cons r rs =>
        have e : joinLines (q :: r :: rs) = (q ++ [nl]) ++ joinLines (r :: rs) := by
          simp [joinLines]
        rw [e]
        have h5 : joinLines (r :: rs) <:+: (q ++ [nl]) ++ joinLines (r :: rs) :=
          List.IsSuffix.isInfix (List.suffix_append _ _)
        exact (ih p h).trans h5

/-- The interpolated strings of a log invocation contain no newline
(true of every string the logger actually receives for a single-line
title/url/time/enum value and of well-formed insight and suggestion
bullets; a newline inside one could forge extra lines). -/
def CleanFields (f : LogFields) : Prop :=
  nl ∉ f.title ∧ nl ∉ f.url ∧ nl ∉ f.timeStr ∧ nl ∉ f.ctVal ∧ nl ∉ f.relVal ∧
  (∀ i ∈ f.insights, nl ∉ i) ∧ (∀ s ∈ f.suggestions, nl ∉ s)

instance (f : LogFields) : Decidable (CleanFields f) := by
  unfold CleanFields
  infer_instance

theorem ne_cons_first {x y : Char} (h : x ≠ y) (a b : List Char) :
    ¬(x :: a = y :: b) := by
  intro e
  injection e with e1 _
  exact h e1

theorem ne_cons_second {w x y : Char} (h : x ≠ y) (a b : List Char) :
    ¬(w :: x :: a = w :: y :: b) := by
  intro e
  injection e with _ e2
  injection e2 with e3 _
  exact h e3

theorem ne_cons_third {w v x y : Char} (h : x ≠ y) (a b : List Char) :
    ¬(w :: v :: x :: a = w :: v :: y :: b) := by
  intro e
  injection e with _ e2
  injection e2 with _ e3
  injection e3 with e4 _
  exact h e4

theorem headerLineCount_filePart (p d : List Char) (hp : nl ∉ p) :
    headerLineCount (chars "# Research Log: " ++ p ++ [nl]) d = 0 := by
  have e : chars "# Research Log: " ++ p ++ [nl] =
      (chars "# Research Log: " ++ p) ++ [nl] := by
    rw [List.append_assoc]
  have hm : nl ∉ chars "# Research Log: " ++ p := by
    intro hm
    rcases List.mem_append.mp hm with hm | hm
    · exact absurd hm (by decide)
    · exact hp hm
  have hne : ¬(chars "# Research Log: " ++ p = chars "## " ++ d) :=
    ne_cons_second (by decide) _ _
  rw [e, headerLineCount_snoc_nl, headerLineCount_no_nl _ _ hm, if_neg hne]

theorem headerLineCount_datePart (d : List Char) (hd : nl ∉ d) :
    headerLineCount (nl :: (chars "## " ++ d ++ [nl])) d = 1 := by
  have e : chars "## " ++ d ++ [nl] = (chars "## " ++ d) ++ [nl] := by
    rw [List.append_assoc]
  have hm : nl ∉ chars "## " ++ d := by
    intro hm
    rcases List.mem_append.mp hm with hm | hm
    · exact absurd hm (by decide)
    · exact hd hm
  rw [headerLineCount_cons_nl, e, headerLineCount_snoc_nl, headerLineCount_no_nl _ _ hm,
    if_pos rfl]

theorem headerLineCount_titlePart (t u d : List Char) (ht : nl ∉ t) (hu : nl ∉ u) :
    headerLineCount (nl :: (chars "### [" ++ t ++ chars "](" ++ u ++ [')'])) d = 0 := by
  have hm : nl ∉ chars "### [" ++ t ++ chars "](" ++ u ++ [')'] := by
    intro hm
    simp only [List.mem_append] at hm
    rcases hm with (((hm | hm) | hm) | hm) | hm
    · exact absurd hm (by decide)
    · exact ht hm
    · exact absurd hm (by decide)
    · exact hu hm
    · exact absurd hm (by decide)
  have hne : ¬(chars "### [" ++ t ++ chars "](" ++ u ++ [')'] = chars "## " ++ d) :=
    ne_cons_third (by decide) _ _
  rw [headerLineCount_cons_nl, headerLineCount_no_nl _ _ hm, if_neg hne]

theorem headerLineCount_metaPart (ts ct d : List Char) (hts : nl ∉ ts) (hct : nl ∉ ct) :
    headerLineCount (chars "*Reviewed at " ++ ts ++ chars " | Type: " ++ ct ++ ['*', nl]) d
      = 0 := by
  have e : chars "*Reviewed at " ++ ts ++ chars " | Type: " ++ ct ++ ['*', nl] =
      (chars "*Reviewed at " ++ ts ++ chars " | Type: " ++ ct ++ ['*']) ++ [nl] := by
    simp only [List.append_assoc]
    rfl
  have hm : nl ∉ chars "*Reviewed at " ++ ts ++ chars " | Type: " ++ ct ++ ['*'] := by
    intro hm
    simp only [List.mem_append] at hm
    rcases hm with (((hm | hm) | hm) | hm) | hm
    · exact absurd hm (by decide)
    · exact hts hm
    · exact absurd hm (by decide)
    · exact hct hm
    · exact absurd hm (by decide)
  have hne : ¬(chars "*Reviewed at " ++ ts ++ chars " | Type: " ++ ct ++ ['*'] =
      chars "## " ++ d) :=
    ne_cons_first (by decide) _ _
  rw [e, headerLineCount_snoc_nl, headerLineCount_no_nl _ _ hm, if_neg hne]

theorem headerLineCount_relLine (r d : List Char) (hr : nl ∉ r) :
    headerLineCount (chars "- **Relevance**: " ++ r) d = 0 := by
  have hm : nl ∉ chars "- **Relevance**: " ++ r := by
    intro hm
    rcases List.mem_append.mp hm with hm | hm
    · exact absurd hm (by decide)
    · exact hr hm
  have hne : ¬(chars "- **Relevance**: " ++ r = chars "## " ++ d) :=
    ne_cons_first (by decide) _ _
  rw [headerLineCount_no_nl _ _ hm, if_neg hne]

theorem headerLineCount_bulletLine (i d : List Char) (hi : nl ∉ i) :
    headerLineCount (chars "  - " ++ i) d = 0 := by
  have hm : nl ∉ chars "  - " ++ i := by
    intro hm
    rcases List.mem_append.mp hm with hm | hm
    · exact absurd hm (by decide)
    · exact hi hm
  have hne : ¬(chars "  - " ++ i = chars "## " ++ d) :=
    ne_cons_first (by decide) _ _
  rw [headerLineCount_no_nl _ _ hm, if_neg hne]

theorem headerLineCount_insightsLabel (d : List Char) :
    headerLineCount (chars "- **Key insights**:") d = 0 := by
  have hne : ¬(chars "- **Key insights**:" = chars "## " ++ d) :=
    ne_cons_first (by decide) _ _
  rw [headerLineCount_no_nl _ _ (by decide), if_neg hne]

theorem headerLineCount_suggestionsLabel (d : List Char) :
    headerLineCount (chars "- **Suggestions**:") d = 0 := by
  have hne : ¬(chars "- **Suggestions**:" = chars "## " ++ d) :=
    ne_cons_first (by decide) _ _
  rw [headerLineCount_no_nl _ _ (by decide), if_neg hne]

theorem sum_bulletBlock (items : List (List Char)) (d : List Char)
    (hcl : ∀ i ∈ items, nl ∉ i) :
    (items.map ((fun q => headerLineCount q d) ∘ fun i => chars "  - " ++ i)).sum = 0 := by
  apply List.sum_eq_zero
  intro x hx
  rcases List.mem_map.mp hx with ⟨i, hi, rfl⟩
  show headerLineCount (chars "  - " ++ i) d = 0
  exact headerLineCount_bulletLine i d (hcl i hi)

theorem headerLineCount_filePart_r (p d : List Char) (hp : nl ∉ p) :
    headerLineCount (chars "# Research Log: " ++ (p ++ [nl])) d = 0 := by
  rw [← List.append_assoc]
  exact headerLineCount_filePart p d hp

theorem headerLineCount_datePart_r (d : List Char) (hd : nl ∉ d) :
    headerLineCount (nl :: (chars "## " ++ (d ++ [nl]))) d = 1 := by
  rw [← List.append_assoc]
  exact headerLineCount_datePart d hd

theorem headerLineCount_titlePart_r (t u d : List Char) (ht : nl ∉ t) (hu : nl ∉ u) :
    headerLineCount (nl :: (chars "### [" ++ (t ++ (chars "](" ++ (u ++ [')']))))) d = 0 := by
  have e : chars "### [" ++ (t ++ (chars "](" ++ (u ++ [')']))) =
      chars "### [" ++ t ++ chars "](" ++ u ++ [')'] := by
    simp [List.append_assoc]
  rw [e]
  exact headerLineCount_titlePart t u d ht hu

theorem headerLineCount_metaPart_r (ts ct d : List Char) (hts : nl ∉ ts) (hct : nl ∉ ct) :
    headerLineCount (chars "*Reviewed at " ++ (ts ++ (chars " | Type: " ++ (ct ++ ['*', nl])))) d
      = 0 := by
  have e : chars "*Reviewed at " ++ (ts ++ (chars " | Type: " ++ (ct ++ ['*', nl]))) =
      chars "*Reviewed at " ++ ts ++ chars " | Type: " ++ ct ++ ['*', nl] := by
    simp [List.append_assoc]
  rw [e]
  exact headerLineCount_metaPart ts ct d hts hct

theorem headerLineCount_entry (fe nh : Bool) (p d : List Char) (f : LogFields)
    (hp : nl ∉ p) (hd : nl ∉ d) (hf : CleanFields f) :
    headerLineCount (joinLines (mkEntryParts fe nh p d f)) d = if nh then 1 else 0 := by
  obtain ⟨h1, h2, h3, h4, h5, h6, h7⟩ := hf
  have hne : mkEntryParts fe nh p d f ≠ [] := by
    unfold mkEntryParts
    simp
  rw [headerLineCount_joinLines d _ hne]
  unfold mkEntryParts
  by_cases hi : f.insights.isEmpty <;> by_cases hs : f.suggestions.isEmpty <;>
    cases fe <;> cases nh <;>
      simp [hi, hs, headerLineCount_filePart_r p d hp, headerLineCount_datePart_r d hd,
        headerLineCount_titlePart_r f.title f.url d h1 h2,
        headerLineCount_metaPart_r f.timeStr f.ctVal d h3 h4,
        headerLineCount_relLine f.relVal d h5,
        headerLineCount_insightsLabel, headerLineCount_suggestionsLabel,
        headerLineCount_nil, sum_bulletBlock f.insights d h6,
        sum_bulletBlock f.suggestions d h7,
        List.map_append, List.sum_append]

theorem mkEntryParts_existing_head (nh : Bool) (p d : List Char) (f : LogFields) :
    ∃ t ps, mkEntryParts true nh p d f = (nl :: t) :: ps := by
  cases nh
  · exact ⟨_, _, rfl⟩
  · exact ⟨_, _, rfl⟩

theorem headerLineCount_append_entry (e t d : List Char) (ps : List (List Char)) :
    headerLineCount (e ++ joinLines ((nl :: t) :: ps)) d =
      headerLineCount e d + headerLineCount (joinLines ((nl :: t) :: ps)) d := by
  rw [joinLines_first_cons, headerLineCount_append_nl, headerLineCount_cons_nl]

theorem header_infix_entry (fe : Bool) (p d : List Char) (f : LogFields) :
    (chars "## " ++ d) <:+: joinLines (mkEntryParts fe true p d f) := by
  have hmem : (nl :: (chars "## " ++ d ++ [nl])) ∈ mkEntryParts fe true p d f := by
    unfold mkEntryParts
    cases fe <;> simp
  have h1 := infix_of_mem_joinLines _ _ hmem
  have h2 : (chars "## " ++ d) <:+: nl :: (chars "## " ++ d ++ [nl]) :=
    ⟨[nl], [nl], by simp⟩
  exact h2.trans h1

theorem log_review_unfold_first (st : Option (List Char)) (p d : List Char) (f : LogFields)
    (h0 : containsSubL (st.getD []) (chars "## " ++ d) = false) :
    log_review st p d f = (st.getD []) ++ joinLines (mkEntryParts st.isSome true p d f) := by
  unfold log_review
  dsimp only
  rw [h0]
  rfl

theorem log_review_unfold_skip (prior p d : List Char) (f : LogFields)
    (h : containsSubL prior (chars "## " ++ d) = true) :
    log_review (some prior) p d f = prior ++ joinLines (mkEntryParts true false p d f) := by
  unfold log_review
  simp only [Option.getD_some, Option.isSome_some]
  rw [h]
  rfl

/-- C4: two successive `log_review` invocations for the same project on
the same calendar day each only append to the file (the pre-existing
bytes are a prefix of the result), and afterwards the file contains
exactly one date-header line for that day: starting from a state that
does not yet contain the day's header, one header is added by the first
invocation and not duplicated by the second; starting from a state that
already contains it exactly once (as an earlier same-day review left
it), neither invocation adds another. -/
theorem log_review_append_only_single_header :
    ∀ (st : Option (List Char)) (p d : List Char) (f1 f2 : LogFields),
      nl ∉ p → nl ∉ d → CleanFields f1 → CleanFields f2 →
      (st.getD []) <+: log_review st p d f1 ∧
      log_review st p d f1 <+: log_review (some (log_review st p d f1)) p d f2 ∧
      (containsSubL (st.getD []) (chars "## " ++ d) = false →
        headerLineCount (log_review st p d f1) d = 1 ∧
        headerLineCount (log_review (some (log_review st p d f1)) p d f2) d = 1) ∧
      (∀ e, st = some e → containsSubL e (chars "## " ++ d) = true →
        headerLineCount e d = 1 →
        headerLineCount (log_review st p d f1) d = 1 ∧
        headerLineCount (log_review (some (log_review st p d f1)) p d f2) d = 1) := by
  intro st p d f1 f2 hp hd hf1 hf2
  refine ⟨?_, ?_, ?_, ?_⟩
  · show (st.getD []) <+: log_review st p d f1
    unfold log_review
    dsimp only
    exact List.prefix_append _ _
  · generalize log_review st p d f1 = F1
    show F1 <+: log_review (some F1) p d f2
    unfold log_review
    simp only [Option.getD_some]
    exact List.prefix_append _ _
  · intro h0
    have hk1 := log_review_unfold_first st p d f1 h0
    have hinf : (chars "## " ++ d) <:+: log_review st p d f1 := by
      rw [hk1]
      have hsuf : joinLines (mkEntryParts st.isSome true p d f1) <:+:
          (st.getD []) ++ joinLines (mkEntryParts st.isSome true p d f1) :=
        List.IsSuffix.isInfix (List.suffix_append _ _)
      exact (header_infix_entry st.isSome p d f1).trans hsuf
    have hc2 : containsSubL (log_review st p d f1) (chars "## " ++ d) = true :=
      (containsSubL_eq_true_iff _ _).mpr hinf
    have hk2 := log_review_unfold_skip (log_review st p d f1) p d f2 hc2
    have hcF1 : headerLineCount (log_review st p d f1) d = 1 := by
      rw [hk1]
      cases st with
      | none =>
        simp only [Option.getD_none, Option.isSome_none, List.nil_append]
        rw [headerLineCount_entry false true p d f1 hp hd hf1]
        rfl
      | some e =>
        simp only [Option.getD_some, Option.isSome_some]
        rcases mkEntryParts_existing_head true p d f1 with ⟨t, ps, hps⟩
        rw [hps, headerLineCount_append_entry, ← hps,
          headerLineCount_entry true true p d f1 hp hd hf1,
          headerLineCount_eq_zero_of_not_contains e d (by simpa using h0)]
        simp
    refine ⟨hcF1, ?_⟩
    rw [hk2]
    rcases mkEntryParts_existing_head false p d f2 with ⟨t, ps, hps⟩
    rw [hps, headerLineCount_append_entry, ← hps,
      headerLineCount_entry true false p d f2 hp hd hf2, hcF1]
    simp
  · intro e hst hctn hcnt
    subst hst
    have hk1 := log_review_unfold_skip e p d f1 hctn
    have hcF1 : headerLineCount (log_review (some e) p d f1) d = 1 := by
      rw [hk1]
      rcases mkEntryParts_existing_head false p d f1 with ⟨t, ps, hps⟩
      rw [hps, headerLineCount_append_entry, ← hps,
        headerLineCount_entry true false p d f1 hp hd hf1, hcnt]
      simp
    have hinf : (chars "## " ++ d) <:+: log_review (some e) p d f1 := by
      rw [hk1]
      have hpre : e <+: e ++ joinLines (mkEntryParts true false p d f1) :=
        List.prefix_append _ _
      exact (( containsSubL_eq_true_iff e _).mp hctn).trans
        (List.IsPrefix.isInfix hpre)
    have hc2 : containsSubL (log_review (some e) p d f1) (chars "## " ++ d) = true :=
      (containsSubL_eq_true_iff _ _).mpr hinf
    have hk2 := log_review_unfold_skip (log_review (some e) p d f1) p d f2 hc2
    refine ⟨hcF1, ?_⟩
    rw [hk2]
    rcases mkEntryParts_existing_head false p d f2 with ⟨t, ps, hps⟩
    rw [hps, headerLineCount_append_entry, ← hps,
      headerLineCount_entry true false p d f2 hp hd hf2, hcF1]
    simp

/-- Witness for C4 at a concrete fresh log and two same-day entries. -/
theorem log_review_append_only_single_header_witness :
    headerLineCount (log_review none (chars "demo") (chars "2025-01-01")
        ⟨chars "T", chars "http://e", chars "10:00", chars "article", chars "high",
         [chars "i1"], []⟩)
      (chars "2025-01-01") = 1 ∧
    headerLineCount
      (log_review
        (some (log_review none (chars "demo") (chars "2025-01-01")
          ⟨chars "T", chars "http://e", chars "10:00", chars "article", chars "high",
           [chars "i1"], []⟩))
        (chars "demo") (chars "2025-01-01")
        ⟨chars "T2", chars "http://e2", chars "11:00", chars "article", chars "low",
         [], [chars "s1"]⟩)
      (chars "2025-01-01") = 1 :=
  (log_review_append_only_single_header none (chars "demo") (chars "2025-01-01")
      ⟨chars "T", chars "http://e", chars "10:00", chars "article", chars "high",
       [chars "i1"], []⟩
      ⟨chars "T2", chars "http://e2", chars "11:00", chars "article", chars "low",
       [], [chars "s1"]⟩
      (by decide) (by decide) (by decide) (by decide)).2.2.1 (by decide)

end Scout
